import Mathlib

/-!
Shallow embedding of the gnss-rtk solving core (candidate.rs, solutions.rs,
solver.rs).  Rust `f64` values are modelled as exact rationals; fallible Rust
code returns explicit outcome types, with `panic` constructors for the
assertion / out-of-bounds paths; `Vec` becomes `List`.
-/

/-- SPEED_OF_LIGHT (nyx::cosmic), in meters per second. -/
def cLight : ℚ := 299792458

/-- Signal observation (candidate.rs `Observation`): carrier frequency in Hz,
measured value, optional SNR in dB. -/
structure Observation where
  frequency : ℚ
  value : ℚ
  snr : Option ℚ
deriving DecidableEq

/-- Epoch: elapsed seconds into its timescale (hifitime
`Epoch.to_duration().to_seconds()`), tagged with the timescale identifier. -/
structure Epoch where
  sec : ℚ
  ts : ℕ
deriving DecidableEq

/-- Candidate (candidate.rs): the fields read by the verified operations.
`sv`, `t_tx` and `state` are carried by the Rust struct but never read by the
functions under verification, so they are omitted from the embedding. -/
structure Candidate where
  t : Epoch
  clock_corr : ℚ
  tgd : Option ℚ
  code : List Observation
  phase : List Observation
  doppler : List Observation
deriving DecidableEq

/-- Loop of candidate.rs `prefered_pseudorange`: `snr` and `code` are the two
mutable locals, updated while scanning the remaining code observations. -/
def ppLoop : List Observation → Option ℚ → Option Observation → Option Observation
  | [], _, acc => acc
  | c :: rest, snr, acc =>
    match acc with
    | none => ppLoop rest c.snr (some c)
    | some _ =>
      match c.snr with
      | some s1 =>
        match snr with
        | some s2 =>
          if s1 > s2 then ppLoop rest (some s1) (some c) else ppLoop rest snr acc
        | none => ppLoop rest (some s1) (some c)
      | none => ppLoop rest snr acc

/-- candidate.rs `Candidate::prefered_pseudorange`. -/
def Candidate.prefered_pseudorange (c : Candidate) : Option Observation :=
  ppLoop c.code none none

/-- Rust `as u16` applied to an `f64`: truncate toward zero, then saturate into
`[0, 65535]` (float-to-int `as` casts saturate since Rust 1.45). -/
def f64_as_u16 (q : ℚ) : ℕ :=
  if q ≤ 0 then 0 else min ⌊q⌋.toNat 65535

/-- Band classifier used by `dual_pseudorange` / `dual_phase`:
`(frequency / 1000.0) as u16`. -/
def obsBand (o : Observation) : ℕ := f64_as_u16 (o.frequency / 1000)

/-- candidate.rs `Candidate::dual_pseudorange`: number of distinct bands of the
code observations exceeds one (itertools `unique().count() > 1`). -/
def Candidate.dual_pseudorange (c : Candidate) : Bool :=
  decide (1 < (c.code.map obsBand).dedup.length)

/-- candidate.rs `Candidate::dual_phase`. -/
def Candidate.dual_phase (c : Candidate) : Bool :=
  decide (1 < (c.phase.map obsBand).dedup.length)

/-- Retention predicate of candidate.rs `min_snr_mask`: SNR present and at
least the threshold. -/
def snrKeep (min_snr : ℚ) (o : Observation) : Bool :=
  match o.snr with
  | some snr => decide (snr ≥ min_snr)
  | none => false

/-- candidate.rs `Candidate::min_snr_mask`: retain, in each of the three
observation lists, only entries whose SNR is present and at least the mask. -/
def Candidate.min_snr_mask (c : Candidate) (min_snr : ℚ) : Candidate :=
  { c with
    code := c.code.filter (snrKeep min_snr),
    doppler := c.doppler.filter (snrKeep min_snr),
    phase := c.phase.filter (snrKeep min_snr) }

/-- MHz-granularity classifier of `pseudorange_combination`:
`(frequency / 1.0E6) as u16`. -/
def freqBand (o : Observation) : ℕ := f64_as_u16 (o.frequency / 1000000)

/-- Slot scan of candidate.rs `pseudorange_combination`: classify each code
observation into the (L1, L2, L5) slots; a later match overwrites an earlier
one. -/
def prcScan :
    List Observation →
    Option Observation × Option Observation × Option Observation →
    Option Observation × Option Observation × Option Observation
  | [], slots => slots
  | c :: rest, (s0, s1, s2) =>
    let freq := freqBand c
    if freq = 1575 then prcScan rest (some c, s1, s2)
    else if freq = 1227 then prcScan rest (s0, some c, s2)
    else if freq = 1176 then prcScan rest (s0, s1, some c)
    else prcScan rest (s0, s1, s2)

/-- The L1 carrier constant `1575.42_f64 * 1.0E6` (exactly representable). -/
def f_L1 : ℚ := 157542 / 100 * 1000000

/-- The L2 carrier constant `1227.6_f64 * 1.0E6`. -/
def f_L2 : ℚ := 12276 / 10 * 1000000

/-- The L5 carrier constant `1176.45_f64 * 1.0E6`. -/
def f_L5 : ℚ := 117645 / 100 * 1000000

/-- candidate.rs `Candidate::pseudorange_combination`: L1/Lx ionosphere-free
combination of the code observations. -/
def Candidate.pseudorange_combination (c : Candidate) : Option Observation :=
  let codes := prcScan c.code (none, none, none)
  match codes.1 with
  | none => none
  | some c_l1 =>
    match codes.2.1 with
    | some pr =>
      some { snr := none, frequency := c_l1.frequency,
             value := 1 / (f_L1 ^ 2 - f_L2 ^ 2) *
               (f_L1 ^ 2 * c_l1.value - f_L2 ^ 2 * pr.value) }
    | none =>
      match codes.2.2 with
      | some pr =>
        some { snr := none, frequency := c_l1.frequency,
               value := 1 / (f_L1 ^ 2 - f_L5 ^ 2) *
                 (f_L1 ^ 2 * c_l1.value - f_L5 ^ 2 * pr.value) }
      | none => none

/-- Modeling flags of the configuration (cfg.rs) read by `transmission_time`. -/
structure Modeling where
  sv_clock_bias : Bool
  sv_total_group_delay : Bool
deriving DecidableEq

/-- Configuration snapshot: the part read by the verified candidate code. -/
structure Config where
  modeling : Modeling
deriving DecidableEq

/-- Errors of the crate-level `Error` enum reachable from the verified code. -/
inductive SrcError
  | needsAtLeastOnePseudoRange
  | missingPseudoRange
  | pseudoRangeCombination
  | matrixInversionError
  | timeIsNan
deriving DecidableEq

/-- Outcome of `transmission_time`: a transmit epoch and elapsed seconds, a
recoverable error, or a panic of one of the two internal assertions. -/
inductive TxOutcome
  | ok : Epoch → ℚ → TxOutcome
  | err : SrcError → TxOutcome
  | panic : TxOutcome
deriving DecidableEq

/-- candidate.rs `Candidate::transmission_time`.  The two `assert!` statements
on the propagation delay are modelled as the `panic` outcome. -/
def Candidate.transmission_time (c : Candidate) (cfg : Config) : TxOutcome :=
  let seconds_ts := c.t.sec
  match c.prefered_pseudorange with
  | none => .err .missingPseudoRange
  | some pr =>
    let dt_tx := seconds_ts - pr.value / cLight
    let e0 := dt_tx
    let e1 := if cfg.modeling.sv_clock_bias then e0 - c.clock_corr else e0
    let e2 :=
      if cfg.modeling.sv_total_group_delay then
        match c.tgd with
        | some tgd => e1 - tgd
        | none => e1
      else e1
    let dt_secs := c.t.sec - e2
    if 0 < dt_secs then
      if dt_secs ≤ 1 / 10 then .ok ⟨e2, c.t.ts⟩ dt_secs else .panic
    else .panic

/-- nalgebra `try_inverse` in exact arithmetic: a square matrix is invertible
exactly when its determinant is nonzero; the inverse is `det⁻¹ • adjugate`. -/
def try_inverse (A : Matrix (Fin 4) (Fin 4) ℚ) : Option (Matrix (Fin 4) (Fin 4) ℚ) :=
  if A.det = 0 then none else some (A.det⁻¹ • A.adjugate)

/-- f64 `is_nan` transplanted to the exact model: a rational produced by exact
field arithmetic is always an actual number, so the check is constantly
false; the `TimeIsNan` branch of `PVTSolution::new` is kept for structure. -/
def isNanQ (_ : ℚ) : Bool := false

/-- solutions.rs `PVTSolution`.  The code stores `hdop = sqrt(q00+q11)` etc.;
square roots of rationals are irrational in general, so the embedding keeps
the squared DOPs, which carry the same information. -/
structure PVTSolution (α : Type) where
  p : ℚ × ℚ × ℚ
  v : ℚ × ℚ × ℚ
  dt : ℚ
  hdop_sq : ℚ
  vdop_sq : ℚ
  tdop_sq : ℚ
  sv : α

/-- solutions.rs `PVTSolution::new` (lines 116-145): unweighted least squares
over the geometry matrix `g` and observation vector `y`; the weight matrix
`w` and the SV map `sv` are the two remaining parameters of the Rust
signature. -/
def PVTSolution.new {n : ℕ} {α : Type} (g : Matrix (Fin n) (Fin 4) ℚ)
    (w : Matrix (Fin n) (Fin 4) ℚ) (y : Fin n → ℚ) (sv : α) :
    Except SrcError (PVTSolution α) :=
  let g_prime := g.transpose
  match try_inverse (g_prime * g) with
  | none => .error .matrixInversionError
  | some q =>
    let x := (q * g_prime).mulVec y
    let p := (x 0, x 1, x 2)
    let dt := x 3 / cLight
    if isNanQ dt then .error .timeIsNan
    else
      .ok { sv := sv, p := p, v := (0, 0, 0), dt := dt,
            hdop_sq := q 0 0 + q 1 1, vdop_sq := q 2 2, tdop_sq := q 3 3 }

/-- Candidate as seen by solver.rs `run` after interpolation: SV identity, the
optional interpolated elevation, and the optional resolved state. -/
structure SCand where
  sv : ℕ
  elevation : Option ℚ
  state : Option (ℚ × ℚ × ℚ)
deriving DecidableEq

/-- solver.rs `Error` variants reachable from the modelled part of `run`. -/
inductive RunError
  | lessThan4SV : ℚ → RunError
  | solvingError : ℚ → RunError
deriving DecidableEq

/-- Outcome of solver.rs `run`: a solution, an error, or a panic. -/
inductive RunOutcome (σ : Type)
  | ok : σ → RunOutcome σ
  | err : RunError → RunOutcome σ
  | panic : RunOutcome σ
deriving DecidableEq

/-- solver.rs `Mode`: only SPP exists (PPP is commented out). -/
inductive Mode
  | spp
deriving DecidableEq

/-- Mode compliance test inside `elect_candidates`: SPP admits everything. -/
def modeCompliant : Mode → SCand → Bool
  | .spp, _ => true

/-- solver.rs `Solver::elect_candidates`: filter the cloned pool by mode
compliance. -/
def electCandidates (mode : Mode) (pool : List SCand) : List SCand :=
  pool.filterMap (fun c => if modeCompliant mode c then some c else none)

/-- Rust `Vec::swap_remove(i)` for `i < len`: remove index `i`, moving the
last element into its place. -/
def swapRemove {β : Type} (l : List β) (i : ℕ) : List β :=
  match l.getLast? with
  | none => l
  | some x => l.dropLast.set i x

/-- Body of the two filter loops of solver.rs `run`: iterate the precomputed
index range over the shrinking pool; an index at or past the current length
is an out-of-bounds panic, modelled as `none`. -/
def filterLoop {β : Type} (drop : β → Bool) : List ℕ → List β → Option (List β)
  | [], pool => some pool
  | i :: rest, pool =>
    if h : i < pool.length then
      if drop (pool.get ⟨i, h⟩) then filterLoop drop rest (swapRemove pool i)
      else filterLoop drop rest pool
    else none

/-- One masking pass of solver.rs `run` (`for idx in 0..pool.len() - 1`).  On
an empty pool the `usize` bound `0 - 1` underflows: a debug build panics on
the subtraction, a release build wraps and panics on the first out-of-bounds
index; both are `none`. -/
def maskStep {β : Type} (drop : β → Bool) (pool : List β) : Option (List β) :=
  if pool.length = 0 then none
  else filterLoop drop (List.range (pool.length - 1)) pool

/-- Drop test of the elevation mask: elevation absent, or below the mask. -/
def elevDrop (min_elev : ℚ) (c : SCand) : Bool :=
  match c.elevation with
  | some elev => decide (elev < min_elev)
  | none => true

/-- Elevation filter step of `run`: skipped when `min_sv_elev` is unset. -/
def elevStep (min_sv_elev : Option ℚ) (pool : List SCand) : Option (List SCand) :=
  match min_sv_elev with
  | none => some pool
  | some m => maskStep (elevDrop m) pool

/-- Eclipse filter step of `run`: skipped when `min_sv_sunlight_rate` is
unset; the eclipse decision (an external celestial query) is a parameter. -/
def eclipseStep (min_sv_sunlight_rate : Option ℚ) (eclipsed : ℚ → SCand → Bool)
    (pool : List SCand) : Option (List SCand) :=
  match min_sv_sunlight_rate with
  | none => some pool
  | some r => maskStep (eclipsed r) pool

/-- solver.rs `Solver::run` (lines 173-353), up to and including the minimum
SV count check.  `resolve` abstracts the per-candidate transmission-time /
interpolation `filter_map` body (a candidate is dropped when it yields
`none`); `eclipsed` abstracts the external eclipse service; `build` abstracts
the downstream modelization, matrix construction and least-squares call. -/
def run {σ : Type} (min_sv_elev min_sv_sunlight_rate : Option ℚ)
    (resolve : SCand → Option SCand) (eclipsed : ℚ → SCand → Bool)
    (build : List SCand → RunOutcome σ) (t : ℚ) (pool : List SCand) :
    RunOutcome σ :=
  let pool0 := electCandidates .spp pool
  let pool1 := pool0.filterMap resolve
  match elevStep min_sv_elev pool1 with
  | none => .panic
  | some pool2 =>
    match eclipseStep min_sv_sunlight_rate eclipsed pool2 with
    | none => .panic
    | some pool3 =>
      if pool3.length < 4 then .err (.lessThan4SV t) else build pool3

/-- Maximum of two optional SNR values; an absent value is the identity. -/
def optMax : Option ℚ → Option ℚ → Option ℚ
  | none, b => b
  | some a, none => some a
  | some a, some b => some (max a b)

/-- Maximum SNR over the SNR-carrying observations of a list (the spec-side
notion `max { o.snr | o in code, o.snr present }`). -/
def maxSnr (l : List Observation) : Option ℚ :=
  l.foldr (fun o m => optMax o.snr m) none

/-- Last element of a list, or a default slot value when the list is empty
(declarative description of one `prcScan` slot). -/
def lastOr (d : Option Observation) (l : List Observation) : Option Observation :=
  match l.getLast? with
  | some x => some x
  | none => d

/-- Candidate holding the genuine GPS L1 and L2 carriers in Hz: both bands
saturate to 65535 under the `as u16` cast. -/
def dualCex : Candidate :=
  { t := ⟨0, 0⟩, clock_corr := 0, tgd := none,
    code := [⟨1575420000, 20000000, none⟩, ⟨1227600000, 20000005, none⟩],
    phase := [], doppler := [] }

/-- Candidate whose single pseudo-range is zero: the propagation delay
evaluates to `0`, tripping the `dt_secs > 0.0` assertion. -/
def c3cex : Candidate :=
  { t := ⟨100, 0⟩, clock_corr := 0, tgd := none,
    code := [⟨1575420000, 0, none⟩], phase := [], doppler := [] }

/-- Default-flag configuration (both clock-bias and group-delay modeling on,
as in the crate's default `Modeling`). -/
def cfgDefault : Config := { modeling := { sv_clock_bias := true, sv_total_group_delay := true } }

/-- Candidate with an L1 carrier at exactly 1575.0 MHz (band 1575) plus an L2
carrier: the combination inherits frequency 1575.0 MHz, not the constant
`f_L1`. -/
def c7cex : Candidate :=
  { t := ⟨0, 0⟩, clock_corr := 0, tgd := none,
    code := [⟨1575000000, 20000000, none⟩, ⟨1227600000, 20000005, none⟩],
    phase := [], doppler := [] }

/-- Candidate with SNRs {none, 10, 11, 9} on its code list (spec scenario S2). -/
def cand2w : Candidate :=
  { t := ⟨0, 0⟩, clock_corr := 0, tgd := none,
    code := [⟨1575420000, 1, none⟩, ⟨1227600000, 2, some 10⟩,
             ⟨1227600000, 4, some 11⟩, ⟨1176450000, 5, some 9⟩],
    phase := [], doppler := [] }

/-- Candidate with a sane single pseudo-range of 1.0E6 m (propagation delay
about 3.34 ms, inside the asserted window). -/
def c3wit : Candidate :=
  { t := ⟨100, 3⟩, clock_corr := 0, tgd := none,
    code := [⟨1575420000, 1000000, none⟩], phase := [], doppler := [] }

/-- Pool candidate passing a 10-degree elevation mask. -/
def scGood (n : ℕ) : SCand := { sv := n, elevation := some 20, state := some (1, 2, 3) }

/-- Pool candidate failing a 10-degree elevation mask. -/
def scBad : SCand := { sv := 9, elevation := some 5, state := some (4, 5, 6) }

/-- Four-element pool whose failing candidate sits in the final, unexamined
slot of the elevation loop. -/
def c5pool : List SCand := [scGood 1, scGood 2, scGood 3, scBad]

-- ------------------------------------------------------------------
-- Theorems
-- ------------------------------------------------------------------

/-- Sanity-check lemma: `optMax none` is the identity. -/
theorem optMax_none_left (m : Option ℚ) : optMax none m = m := rfl

/-- Evaluation of the saturating cast on a natural number. -/
theorem f64_as_u16_natCast (n : ℕ) : f64_as_u16 (n : ℚ) = min n 65535 := by
  unfold f64_as_u16
  split
  · rename_i h
    have h0 : n = 0 := by exact_mod_cast Nat.le_zero.mp (by exact_mod_cast h)
    subst h0
    simp
  · rw [Int.floor_natCast]
    simp

/-- C8: applying `min_snr_mask` with the same threshold twice yields the same
code, phase and doppler lists as applying it once. -/
theorem min_snr_mask_idempotent (c : Candidate) (m : ℚ) :
    ((c.min_snr_mask m).min_snr_mask m).code = (c.min_snr_mask m).code ∧
    ((c.min_snr_mask m).min_snr_mask m).phase = (c.min_snr_mask m).phase ∧
    ((c.min_snr_mask m).min_snr_mask m).doppler = (c.min_snr_mask m).doppler := by
  cases c
  refine ⟨?_, ?_, ?_⟩ <;> simp [Candidate.min_snr_mask, List.filter_filter]

/-- A deduplicated list has more than one element exactly when the original
list holds two distinct elements. -/
theorem dedup_length_gt_one {α : Type} [DecidableEq α] (l : List α) :
    1 < l.dedup.length ↔ ∃ a ∈ l, ∃ b ∈ l, a ≠ b := by
  constructor
  · intro h
    match hd : l.dedup with
    | [] => rw [hd] at h; simp at h
    | [a] => rw [hd] at h; simp at h
    | a :: b :: t =>
      have hnd := l.nodup_dedup
      rw [hd] at hnd
      have hab : a ≠ b := by
        intro e
        subst e
        simp at hnd
      have ha : a ∈ l := by
        have : a ∈ l.dedup := by rw [hd]; simp
        exact List.mem_dedup.mp this
      have hb : b ∈ l := by
        have : b ∈ l.dedup := by rw [hd]; simp
        exact List.mem_dedup.mp this
      exact ⟨a, ha, b, hb, hab⟩
  · rintro ⟨a, ha, b, hb, hab⟩
    by_contra hle
    push_neg at hle
    have ha' : a ∈ l.dedup := List.mem_dedup.mpr ha
    have hb' : b ∈ l.dedup := List.mem_dedup.mpr hb
    match hd : l.dedup with
    | [] => rw [hd] at ha'; simp at ha'
    | [x] =>
      rw [hd] at ha' hb'
      simp at ha' hb'
      exact hab (ha'.trans hb'.symm)
    | x :: y :: t =>
      rw [hd] at hle
      simp at hle

/-- C4 (amended): `dual_pseudorange` is true exactly when two code
observations land in distinct bands of the saturating `as u16` classifier
`min(max(trunc(frequency / 1000), 0), 65535)` — not the pure floor
`frequency / 1000`, which the cast clamps at 65535. -/
theorem dual_pseudorange_iff (c : Candidate) :
    c.dual_pseudorange = true ↔ ∃ a ∈ c.code, ∃ b ∈ c.code, obsBand a ≠ obsBand b := by
  rw [Candidate.dual_pseudorange, decide_eq_true_iff, dedup_length_gt_one]
  constructor
  · rintro ⟨a, ha, b, hb, hab⟩
    obtain ⟨a0, ha0, rfl⟩ := List.mem_map.mp ha
    obtain ⟨b0, hb0, rfl⟩ := List.mem_map.mp hb
    exact ⟨a0, ha0, b0, hb0, hab⟩
  · rintro ⟨a, ha, b, hb, hab⟩
    exact ⟨obsBand a, List.mem_map_of_mem obsBand ha,
      obsBand b, List.mem_map_of_mem obsBand hb, hab⟩

/-- C4 counterexample: the genuine L1 and L2 carriers (1575.42 MHz and
1227.6 MHz, given in Hz) quantize to distinct integer bands under
`⌊frequency / 1000⌋`, yet `dual_pseudorange` answers false: the `as u16`
cast saturates both bands to 65535. -/
theorem dual_pseudorange_counterexample :
    dualCex.dual_pseudorange = false ∧
    ⌊(1575420000 : ℚ) / 1000⌋ ≠ ⌊(1227600000 : ℚ) / 1000⌋ := by
  have q1 : (1575420000 : ℚ) / 1000 = ((1575420 : ℕ) : ℚ) := by norm_num
  have q2 : (1227600000 : ℚ) / 1000 = ((1227600 : ℕ) : ℚ) := by norm_num
  constructor
  · have e1 : obsBand ⟨1575420000, 20000000, none⟩ = 65535 := by
      rw [obsBand]
      show f64_as_u16 ((1575420000 : ℚ) / 1000) = 65535
      rw [q1, f64_as_u16_natCast]
      decide
    have e2 : obsBand ⟨1227600000, 20000005, none⟩ = 65535 := by
      rw [obsBand]
      show f64_as_u16 ((1227600000 : ℚ) / 1000) = 65535
      rw [q2, f64_as_u16_natCast]
      decide
    rw [Candidate.dual_pseudorange]
    show decide (1 < ([obsBand ⟨1575420000, 20000000, none⟩,
      obsBand ⟨1227600000, 20000005, none⟩].dedup).length) = false
    rw [e1, e2]
    decide
  · rw [q1, q2, Int.floor_natCast, Int.floor_natCast]
    decide

/-- A smaller element is absorbed on the left of `optMax`. -/
theorem optMax_absorb_le {a b : ℚ} (h : b ≤ a) (M : Option ℚ) :
    optMax (some b) (optMax (some a) M) = optMax (some a) M := by
  cases M with
  | none => simp [optMax, max_eq_right h]
  | some m =>
    simp only [optMax, Option.some.injEq]
    exact max_eq_right (le_trans h (le_max_left a m))

/-- A larger element replaces the left argument of `optMax`. -/
theorem optMax_absorb_ge {a b : ℚ} (h : a ≤ b) (M : Option ℚ) :
    optMax (some b) (optMax (some a) M) = optMax (some b) M := by
  cases M with
  | none => simp [optMax, max_eq_left h]
  | some m =>
    simp only [optMax, Option.some.injEq]
    rw [← max_assoc, max_eq_left h]

/-- Unfolding `maxSnr` over a cons cell. -/
theorem maxSnr_cons (o : Observation) (l : List Observation) :
    maxSnr (o :: l) = optMax o.snr (maxSnr l) := rfl

/-- `maxSnr` is absent exactly when every observation lacks an SNR. -/
theorem maxSnr_eq_none_iff (l : List Observation) :
    maxSnr l = none ↔ ∀ o ∈ l, o.snr = none := by
  induction l with
  | nil => simp [maxSnr]
  | cons o t ih =>
    rw [maxSnr_cons]
    cases ho : o.snr with
    | none => simp [optMax, ho, ih]
    | some s =>
      constructor
      · intro h
        exfalso
        cases hm : maxSnr t <;> simp [optMax, hm] at h
      · intro h
        exact absurd (h o (by simp)) (by simp [ho])

/-- The value of `maxSnr` is attained by some observation of the list. -/
theorem maxSnr_attained {l : List Observation} {s : ℚ} (h : maxSnr l = some s) :
    ∃ o ∈ l, o.snr = some s := by
  induction l with
  | nil => simp [maxSnr] at h
  | cons o t ih =>
    rw [maxSnr_cons] at h
    cases ho : o.snr with
    | none =>
      rw [ho, optMax_none_left] at h
      obtain ⟨o1, h1, h2⟩ := ih h
      exact ⟨o1, by simp [h1], h2⟩
    | some a =>
      rw [ho] at h
      cases hm : maxSnr t with
      | none =>
        rw [hm] at h
        simp only [optMax, Option.some.injEq] at h
        exact ⟨o, by simp, by rw [ho, h]⟩
      | some m =>
        rw [hm] at h
        simp only [optMax, Option.some.injEq] at h
        rcases le_total m a with hc | hc
        · refine ⟨o, by simp, ?_⟩
          rw [ho, ← h, max_eq_left hc]
        · obtain ⟨o1, h1, h2⟩ := ih (by rw [hm, ← h, max_eq_right hc])
          exact ⟨o1, by simp [h1], h2⟩

/-- The value of `maxSnr` bounds every present SNR of the list. -/
theorem maxSnr_is_ub (l : List Observation) :
    ∀ s, maxSnr l = some s → ∀ o ∈ l, ∀ s1, o.snr = some s1 → s1 ≤ s := by
  induction l with
  | nil => simp
  | cons o t ih =>
    intro s h o1 ho1 s1 hs1
    rw [maxSnr_cons] at h
    rcases List.mem_cons.mp ho1 with rfl | hmem
    · rw [hs1] at h
      cases hm : maxSnr t with
      | none =>
        rw [hm] at h
        simp only [optMax, Option.some.injEq] at h
        exact le_of_eq h
      | some m =>
        rw [hm] at h
        simp only [optMax, Option.some.injEq] at h
        rw [← h]
        exact le_max_left s1 m
    · cases hm : maxSnr t with
      | none =>
        exact absurd hs1 (by simp [(maxSnr_eq_none_iff t).mp hm o1 hmem])
      | some m =>
        have hle := ih m hm o1 hmem s1 hs1
        rw [hm] at h
        cases ho : o.snr with
        | none =>
          rw [ho, optMax_none_left] at h
          simp only [Option.some.injEq] at h
          exact h ▸ hle
        | some a =>
          rw [ho] at h
          simp only [optMax, Option.some.injEq] at h
          exact le_trans hle (le_trans (le_max_right a m) (le_of_eq h))

/-- Invariant of the `prefered_pseudorange` loop: with a held accumulator the
loop returns an element drawn from the accumulator or the remainder, whose
SNR is the running maximum; when no SNR exists at all, the held accumulator
survives. -/
theorem ppLoop_some (l : List Observation) :
    ∀ o0 : Observation, ∃ r : Observation,
      ppLoop l o0.snr (some o0) = some r ∧ (r = o0 ∨ r ∈ l) ∧
      r.snr = optMax o0.snr (maxSnr l) ∧
      ((o0.snr = none ∧ ∀ o ∈ l, o.snr = none) → r = o0) := by
  induction l with
  | nil =>
    intro o0
    refine ⟨o0, rfl, Or.inl rfl, ?_, fun _ => rfl⟩
    cases h : o0.snr <;> simp [maxSnr, optMax, h]
  | cons c rest ih =>
    intro o0
    cases hc : c.snr with
    | none =>
      obtain ⟨r, h1, h2, h3, h4⟩ := ih o0
      refine ⟨r, ?_, ?_, ?_, ?_⟩
      · simpa [ppLoop, hc] using h1
      · rcases h2 with h | h
        · exact Or.inl h
        · exact Or.inr (List.mem_cons_of_mem c h)
      · rw [maxSnr_cons, hc, optMax_none_left]
        exact h3
      · rintro ⟨hnone, hall⟩
        exact h4 ⟨hnone, fun o ho => hall o (List.mem_cons_of_mem c ho)⟩
    | some s1 =>
      cases ho : o0.snr with
      | none =>
        obtain ⟨r, h1, h2, h3, h4⟩ := ih c
        refine ⟨r, ?_, ?_, ?_, ?_⟩
        · have hstep : ppLoop (c :: rest) none (some o0) =
              ppLoop rest (some s1) (some c) := by
            simp [ppLoop, hc]
          rw [hstep, ← hc]
          exact h1
        · rcases h2 with h | h
          · exact Or.inr (h ▸ List.mem_cons_self c rest)
          · exact Or.inr (List.mem_cons_of_mem c h)
        · rw [maxSnr_cons, optMax_none_left]
          exact h3
        · rintro ⟨-, hall⟩
          exact absurd (hall c (List.mem_cons_self c rest)) (by simp [hc])
      | some s2 =>
        by_cases hgt : s1 > s2
        · obtain ⟨r, h1, h2, h3, h4⟩ := ih c
          refine ⟨r, ?_, ?_, ?_, ?_⟩
          · have hstep : ppLoop (c :: rest) (some s2) (some o0) =
                ppLoop rest (some s1) (some c) := by
              simp [ppLoop, hc, hgt]
            rw [hstep, ← hc]
            exact h1
          · rcases h2 with h | h
            · exact Or.inr (h ▸ List.mem_cons_self c rest)
            · exact Or.inr (List.mem_cons_of_mem c h)
          · rw [maxSnr_cons, hc, optMax_absorb_le (le_of_lt hgt) (maxSnr rest)]
            rw [hc] at h3
            exact h3
          · rintro ⟨h0, -⟩
            exact Option.noConfusion h0
        · obtain ⟨r, h1, h2, h3, h4⟩ := ih o0
          refine ⟨r, ?_, ?_, ?_, ?_⟩
          · have hstep : ppLoop (c :: rest) (some s2) (some o0) =
                ppLoop rest (some s2) (some o0) := by
              simp [ppLoop, hc, hgt]
            rw [hstep]
            rw [ho] at h1
            exact h1
          · rcases h2 with h | h
            · exact Or.inl h
            · exact Or.inr (List.mem_cons_of_mem c h)
          · rw [maxSnr_cons, hc, optMax_absorb_ge (not_lt.mp hgt) (maxSnr rest)]
            rw [ho] at h3
            exact h3
          · rintro ⟨h0, -⟩
            exact Option.noConfusion h0

/-- C2: `prefered_pseudorange` returns an element of the code list or none
(and never reads `phase` or `doppler`); when at least one code entry carries
an SNR, the pick's SNR equals the maximum SNR over the SNR-carrying code
entries; when no code entry carries an SNR, the first code entry in list
order is returned. -/
theorem prefered_pseudorange_spec (c : Candidate) :
    (∀ o, c.prefered_pseudorange = some o → o ∈ c.code) ∧
    (c.prefered_pseudorange = none ↔ c.code = []) ∧
    (∀ ph dp, Candidate.prefered_pseudorange { c with phase := ph, doppler := dp } =
      c.prefered_pseudorange) ∧
    ((∃ o ∈ c.code, o.snr ≠ none) →
      ∃ o s, c.prefered_pseudorange = some o ∧ o.snr = some s ∧
        (∃ o1 ∈ c.code, o1.snr = some s) ∧
        ∀ o1 ∈ c.code, ∀ s1, o1.snr = some s1 → s1 ≤ s) ∧
    ((∀ o ∈ c.code, o.snr = none) → c.prefered_pseudorange = c.code.head?) := by
  have hpd : ∀ ph dp, Candidate.prefered_pseudorange { c with phase := ph, doppler := dp } =
      c.prefered_pseudorange := fun ph dp => rfl
  match hcode : c.code with
  | [] =>
    have hval : c.prefered_pseudorange = none := by
      rw [Candidate.prefered_pseudorange, hcode]
      rfl
    refine ⟨?_, ?_, ?_, ?_, ?_⟩
    · intro o h
      rw [hval] at h
      exact Option.noConfusion h
    · simp [hval]
    · intro ph dp
      rw [← hcode]
      exact hpd ph dp
    · rintro ⟨o, ho, -⟩
      exact absurd ho (by simp)
    · intro _
      simp [hval]
  | o0 :: rest =>
    obtain ⟨r, h1, h2, h3, h4⟩ := ppLoop_some rest o0
    have hval : c.prefered_pseudorange = some r := by
      rw [Candidate.prefered_pseudorange, hcode]
      show ppLoop rest o0.snr (some o0) = some r
      exact h1
    have hrs : r.snr = maxSnr (o0 :: rest) := by
      rw [maxSnr_cons]
      exact h3
    refine ⟨?_, ?_, ?_, ?_, ?_⟩
    · intro o h
      rw [hval] at h
      cases h
      rcases h2 with h | h
      · exact h ▸ List.mem_cons_self o0 rest
      · exact List.mem_cons_of_mem o0 h
    · rw [hval]
      simp
    · intro ph dp
      rw [← hcode]
      exact hpd ph dp
    · rintro ⟨o, ho, hsnr⟩
      have hmax : maxSnr (o0 :: rest) ≠ none := by
        rw [Ne, maxSnr_eq_none_iff]
        intro hall
        exact hsnr (hall o ho)
      obtain ⟨s, hs⟩ := Option.ne_none_iff_exists'.mp hmax
      refine ⟨r, s, hval, by rw [hrs, hs], maxSnr_attained hs, maxSnr_is_ub _ s hs⟩
    · intro hall
      have : r = o0 := h4 ⟨hall o0 (List.mem_cons_self o0 rest),
        fun o ho => hall o (List.mem_cons_of_mem o0 ho)⟩
      rw [hval, this]
      rfl

/-- Witness for C2 at spec scenario S2: SNRs {none, 10, 11, 9} force the pick
with SNR 11. -/
theorem prefered_pseudorange_spec_witness :
    (∃ o ∈ cand2w.code, o.snr ≠ none) ∧
    (∃ o s, cand2w.prefered_pseudorange = some o ∧ o.snr = some s ∧
      (∃ o1 ∈ cand2w.code, o1.snr = some s) ∧
      ∀ o1 ∈ cand2w.code, ∀ s1, o1.snr = some s1 → s1 ≤ s) := by
  have h : ∃ o ∈ cand2w.code, o.snr ≠ none := by decide
  exact ⟨h, (prefered_pseudorange_spec cand2w).2.2.2.1 h⟩

/-- `prefered_pseudorange` misses exactly on an empty code list. -/
theorem prefered_eq_none_iff (c : Candidate) :
    c.prefered_pseudorange = none ↔ c.code = [] := by
  match hcode : c.code with
  | [] =>
    rw [Candidate.prefered_pseudorange, hcode]
    exact ⟨fun _ => rfl, fun _ => rfl⟩
  | o0 :: rest =>
    obtain ⟨r, h1, -, -, -⟩ := ppLoop_some rest o0
    rw [Candidate.prefered_pseudorange, hcode]
    constructor
    · intro h
      rw [show ppLoop (o0 :: rest) none none = ppLoop rest o0.snr (some o0) from rfl, h1] at h
      exact Option.noConfusion h
    · intro h
      exact List.noConfusion h

/-- An outcome built from the two assertion gates is never a recoverable
error. -/
theorem tx_gate_ne_err (P Q : Prop) [Decidable P] [Decidable Q] (e : Epoch)
    (d : ℚ) (er : SrcError) :
    (if P then (if Q then TxOutcome.ok e d else .panic) else .panic) ≠ .err er := by
  split
  · split
    · exact fun h => TxOutcome.noConfusion h
    · exact fun h => TxOutcome.noConfusion h
  · exact fun h => TxOutcome.noConfusion h

/-- C3 (amended): `transmission_time` fails with MissingPseudoRange exactly
when the candidate has no code observation; otherwise, writing `e` for the
transmit epoch `seconds(t) - prefered_pseudorange(c).value / c_light` with
`clock_corr` subtracted when `modeling.sv_clock_bias` is set and `tgd`
subtracted when `modeling.sv_total_group_delay` is set and `tgd` present, it
returns `(e, t - e)` provided the propagation delay `t - e` lies in the
asserted window `(0, 0.1]`, and panics on the internal assertion otherwise. -/
theorem transmission_time_spec (cfg : Config) (c : Candidate) :
    (c.transmission_time cfg = .err .missingPseudoRange ↔ c.code = []) ∧
    (∀ pr, c.prefered_pseudorange = some pr →
      ∀ e : ℚ, e = c.t.sec - pr.value / cLight -
          (if cfg.modeling.sv_clock_bias then c.clock_corr else 0) -
          (if cfg.modeling.sv_total_group_delay then c.tgd.getD 0 else 0) →
      (0 < c.t.sec - e ∧ c.t.sec - e ≤ 1 / 10 →
        c.transmission_time cfg = .ok ⟨e, c.t.ts⟩ (c.t.sec - e)) ∧
      (¬(0 < c.t.sec - e ∧ c.t.sec - e ≤ 1 / 10) →
        c.transmission_time cfg = .panic)) := by
  constructor
  · constructor
    · intro h
      by_contra hne
      have hsome : c.prefered_pseudorange ≠ none :=
        fun hn => hne ((prefered_eq_none_iff c).mp hn)
      obtain ⟨pr, hpr⟩ := Option.ne_none_iff_exists'.mp hsome
      rw [Candidate.transmission_time, hpr] at h
      simp only at h
      exact absurd h (tx_gate_ne_err _ _ _ _ _)
    · intro h
      have hnone : c.prefered_pseudorange = none := (prefered_eq_none_iff c).mpr h
      rw [Candidate.transmission_time, hnone]
  · intro pr hpr e he
    have hred : c.transmission_time cfg =
        (if 0 < c.t.sec - e then
          (if c.t.sec - e ≤ 1 / 10 then .ok ⟨e, c.t.ts⟩ (c.t.sec - e) else .panic)
         else .panic) := by
      rw [Candidate.transmission_time, hpr]
      subst he
      cases hb : cfg.modeling.sv_clock_bias <;>
        cases hg : cfg.modeling.sv_total_group_delay <;>
        cases ht : c.tgd <;>
        simp only [hb, hg, ht, Option.getD_some, Option.getD_none, sub_zero,
          Bool.false_eq_true, if_false, if_true]
    constructor
    · rintro ⟨h1, h2⟩
      rw [hred, if_pos h1, if_pos h2]
    · intro h
      rw [hred]
      by_cases h1 : 0 < c.t.sec - e
      · have h2 : ¬ (c.t.sec - e ≤ 1 / 10) := fun h2 => h ⟨h1, h2⟩
        rw [if_pos h1, if_neg h2]
      · rw [if_neg h1]

/-- C3 counterexample: a candidate with a code observation whose pseudo-range
is zero has a propagation delay of exactly zero, so `transmission_time`
panics on its `dt_secs > 0.0` assertion instead of returning the pair that
the claim promises. -/
theorem transmission_time_counterexample :
    c3cex.code ≠ [] ∧ c3cex.transmission_time cfgDefault = .panic := by
  refine ⟨by decide, ?_⟩
  have hpr : c3cex.prefered_pseudorange = some ⟨1575420000, 0, none⟩ := by decide
  rw [Candidate.transmission_time, hpr]
  norm_num [c3cex, cfgDefault]

/-- Witness for C3 at a sane pseudo-range of 1.0E6 m (delay about 3.34 ms). -/
theorem transmission_time_spec_witness :
    c3wit.transmission_time cfgDefault =
      .ok ⟨100 - 1000000 / cLight - 0 - 0, 3⟩
        (100 - (100 - 1000000 / cLight - 0 - 0)) := by
  have h := (transmission_time_spec cfgDefault c3wit).2 ⟨1575420000, 1000000, none⟩
    (by decide) (100 - 1000000 / cLight - 0 - 0) (by norm_num [cfgDefault, c3wit])
  exact h.1 (by norm_num [c3wit, cLight])

/-- A cons cell shifts the default of `lastOr` to its head. -/
theorem lastOr_cons (d : Option Observation) (c : Observation) (t : List Observation) :
    lastOr d (c :: t) = lastOr (some c) t := by
  cases t with
  | nil => rfl
  | cons x xs =>
    rw [lastOr, lastOr, List.getLast?_cons_cons]
    cases hgl : (x :: xs).getLast? with
    | some y => rfl
    | none => exact absurd (List.getLast?_eq_none_iff.mp hgl) (by simp)

/-- The slot scan of `pseudorange_combination` computes, for each of the three
bands, the last matching code observation (or the incoming slot value). -/
theorem prcScan_spec (l : List Observation) :
    ∀ s0 s1 s2,
      prcScan l (s0, s1, s2) =
        (lastOr s0 (l.filter fun o => freqBand o = 1575),
         lastOr s1 (l.filter fun o => freqBand o = 1227),
         lastOr s2 (l.filter fun o => freqBand o = 1176)) := by
  induction l with
  | nil => intro s0 s1 s2; rfl
  | cons c rest ih =>
    intro s0 s1 s2
    by_cases h0 : freqBand c = 1575
    · have h1 : ¬ freqBand c = 1227 := by omega
      have h2 : ¬ freqBand c = 1176 := by omega
      simp only [prcScan, if_pos h0, ih (some c) s1 s2, List.filter_cons,
        decide_eq_true h0, decide_eq_false h1, decide_eq_false h2,
        if_true, if_false, lastOr_cons]
      simp
    · by_cases h1 : freqBand c = 1227
      · have h2 : ¬ freqBand c = 1176 := by omega
        simp only [prcScan, if_neg h0, if_pos h1, ih s0 (some c) s2, List.filter_cons,
          decide_eq_true h1, decide_eq_false h0, decide_eq_false h2,
          if_true, if_false, lastOr_cons]
        simp
      · by_cases h2 : freqBand c = 1176
        · simp only [prcScan, if_neg h0, if_neg h1, if_pos h2, ih s0 s1 (some c),
            List.filter_cons, decide_eq_true h2, decide_eq_false h0, decide_eq_false h1,
            if_true, if_false, lastOr_cons]
          simp
        · simp only [prcScan, if_neg h0, if_neg h1, if_neg h2, ih s0 s1 s2,
            List.filter_cons, decide_eq_false h0, decide_eq_false h1, decide_eq_false h2,
            if_false]
          simp

/-- Evaluation of the saturating cast from the enclosing integer window. -/
theorem f64_as_u16_eval {q : ℚ} {n : ℕ} (h0 : 0 < q) (h1 : (n : ℚ) ≤ q)
    (h2 : q < n + 1) (h3 : n ≤ 65535) : f64_as_u16 q = n := by
  have hfl : ⌊q⌋ = (n : ℤ) := by
    rw [Int.floor_eq_iff]
    · exact ⟨by exact_mod_cast h1, by exact_mod_cast h2⟩
  unfold f64_as_u16
  rw [if_neg (not_le.mpr h0), hfl]
  simp [min_eq_left h3]

/-- Band classifications of the two carriers of `c7cex`. -/
theorem c7cex_bands :
    freqBand ⟨1575000000, 20000000, none⟩ = 1575 ∧
    freqBand ⟨1227600000, 20000005, none⟩ = 1227 := by
  constructor
  · show f64_as_u16 ((1575000000 : ℚ) / 1000000) = 1575
    exact f64_as_u16_eval (by norm_num) (by norm_num) (by norm_num) (by norm_num)
  · show f64_as_u16 ((1227600000 : ℚ) / 1000000) = 1227
    exact f64_as_u16_eval (by norm_num) (by norm_num) (by norm_num) (by norm_num)

/-- Per-band filters of the `c7cex` code list. -/
theorem c7cex_filters :
    c7cex.code.filter (fun o => freqBand o = 1575) = [⟨1575000000, 20000000, none⟩] ∧
    c7cex.code.filter (fun o => freqBand o = 1227) = [⟨1227600000, 20000005, none⟩] ∧
    c7cex.code.filter (fun o => freqBand o = 1176) = [] := by
  obtain ⟨e1, e2⟩ := c7cex_bands
  refine ⟨?_, ?_, ?_⟩ <;>
    simp [c7cex, List.filter_cons, e1, e2]

/-- C7 (amended): `pseudorange_combination` classifies the code observations
by the saturating MHz cast into L1 (1575), L2 (1227) and L5 (1176) slots,
each slot keeping the last matching entry; it returns none when L1 is absent
or both companions are absent; otherwise it combines L1 with L2 when present
and with L5 otherwise, producing value
`α (f₁² c₁ − fₓ² cₓ)` with `α = 1/(f₁² − fₓ²)` over the carrier constants,
snr = none, and frequency equal to the L1 observation's own frequency (which
is the constant f₁ only when that carrier is exactly 1575.42 MHz). -/
theorem pseudorange_combination_spec (c : Candidate) :
    (c.pseudorange_combination = none ↔
      (lastOr none (c.code.filter fun o => freqBand o = 1575) = none ∨
       (lastOr none (c.code.filter fun o => freqBand o = 1227) = none ∧
        lastOr none (c.code.filter fun o => freqBand o = 1176) = none))) ∧
    (∀ c1 cx, lastOr none (c.code.filter fun o => freqBand o = 1575) = some c1 →
      lastOr none (c.code.filter fun o => freqBand o = 1227) = some cx →
      c.pseudorange_combination = some
        { frequency := c1.frequency,
          value := 1 / (f_L1 ^ 2 - f_L2 ^ 2) * (f_L1 ^ 2 * c1.value - f_L2 ^ 2 * cx.value),
          snr := none }) ∧
    (∀ c1 cx, lastOr none (c.code.filter fun o => freqBand o = 1575) = some c1 →
      lastOr none (c.code.filter fun o => freqBand o = 1227) = none →
      lastOr none (c.code.filter fun o => freqBand o = 1176) = some cx →
      c.pseudorange_combination = some
        { frequency := c1.frequency,
          value := 1 / (f_L1 ^ 2 - f_L5 ^ 2) * (f_L1 ^ 2 * c1.value - f_L5 ^ 2 * cx.value),
          snr := none }) := by
  have hscan := prcScan_spec c.code none none none
  have hred : c.pseudorange_combination =
      (match lastOr none (c.code.filter fun o => freqBand o = 1575),
             lastOr none (c.code.filter fun o => freqBand o = 1227),
             lastOr none (c.code.filter fun o => freqBand o = 1176) with
       | none, _, _ => none
       | some _, none, none => none
       | some c1, some cx, _ =>
         some { frequency := c1.frequency,
                value := 1 / (f_L1 ^ 2 - f_L2 ^ 2) *
                  (f_L1 ^ 2 * c1.value - f_L2 ^ 2 * cx.value),
                snr := none }
       | some c1, none, some cx =>
         some { frequency := c1.frequency,
                value := 1 / (f_L1 ^ 2 - f_L5 ^ 2) *
                  (f_L1 ^ 2 * c1.value - f_L5 ^ 2 * cx.value),
                snr := none }) := by
    unfold Candidate.pseudorange_combination
    rw [hscan]
    cases lastOr none (c.code.filter fun o => freqBand o = 1575) <;>
      cases lastOr none (c.code.filter fun o => freqBand o = 1227) <;>
      cases lastOr none (c.code.filter fun o => freqBand o = 1176) <;>
      rfl
  refine ⟨?_, ?_, ?_⟩
  · rw [hred]
    cases lastOr none (c.code.filter fun o => freqBand o = 1575) <;>
      cases lastOr none (c.code.filter fun o => freqBand o = 1227) <;>
      cases lastOr none (c.code.filter fun o => freqBand o = 1176) <;>
      simp
  · intro c1 cx ha hb
    rw [hred, ha, hb]
  · intro c1 cx ha hb hcx
    rw [hred, ha, hb, hcx]

/-- C7 counterexample: with an L1 carrier at exactly 1575.0 MHz (still band
1575) and an L2 companion, the combination's `frequency` field is the L1
observation's 1575.0 MHz — not the constant `f₁ = 1575.42 MHz` that the
claim promises. -/
theorem pseudorange_combination_counterexample :
    c7cex.pseudorange_combination.map Observation.frequency = some 1575000000 ∧
    (1575000000 : ℚ) ≠ f_L1 := by
  obtain ⟨h1, h2, h3⟩ := c7cex_filters
  have hscan := prcScan_spec c7cex.code none none none
  rw [h1, h2, h3] at hscan
  constructor
  · show (Candidate.pseudorange_combination c7cex).map Observation.frequency = some 1575000000
    unfold Candidate.pseudorange_combination
    rw [hscan]
    rfl
  · norm_num [f_L1]

/-- Witness for C7: the amended theorem applied at `c7cex`. -/
theorem pseudorange_combination_spec_witness :
    c7cex.pseudorange_combination = some
      { frequency := (1575000000 : ℚ),
        value := 1 / (f_L1 ^ 2 - f_L2 ^ 2) *
          (f_L1 ^ 2 * 20000000 - f_L2 ^ 2 * 20000005),
        snr := none } := by
  obtain ⟨h1, h2, h3⟩ := c7cex_filters
  have ha : lastOr none (c7cex.code.filter fun o => freqBand o = 1575) =
      some ⟨1575000000, 20000000, none⟩ := by rw [h1]; rfl
  have hb : lastOr none (c7cex.code.filter fun o => freqBand o = 1227) =
      some ⟨1227600000, 20000005, none⟩ := by rw [h2]; rfl
  exact (pseudorange_combination_spec c7cex).2.1 _ _ ha hb

/-- C10: the result of `PVTSolution::new` does not depend on the weight
matrix argument `w` — the supplied weights are never applied. -/
theorem pvt_new_ignores_weights {n : ℕ} {α : Type} (g : Matrix (Fin n) (Fin 4) ℚ)
    (w w' : Matrix (Fin n) (Fin 4) ℚ) (y : Fin n → ℚ) (sv : α) :
    PVTSolution.new g w y sv = PVTSolution.new g w' y sv := rfl

/-- C1: `PVTSolution::new` fails with MatrixInversionError exactly on a
singular normal matrix `GᵀG`; otherwise it returns the least-squares state
`x = (GᵀG)⁻¹ Gᵀ y` (which satisfies the normal equations `GᵀG x = Gᵀ y`),
with `p = (x₀, x₁, x₂)` and `dt = x₃ / c_light`.  In the exact-arithmetic
model `dt` is always an actual number, so the `TimeIsNan` branch cannot
fire. -/
theorem pvt_new_least_squares {n : ℕ} {α : Type} (g w : Matrix (Fin n) (Fin 4) ℚ)
    (y : Fin n → ℚ) (sv : α) :
    ((g.transpose * g).det = 0 →
      PVTSolution.new g w y sv = .error .matrixInversionError) ∧
    ((g.transpose * g).det ≠ 0 →
      (g.transpose * g).mulVec (((g.transpose * g)⁻¹ * g.transpose).mulVec y) =
        g.transpose.mulVec y ∧
      PVTSolution.new g w y sv = .ok
        { p := ((((g.transpose * g)⁻¹ * g.transpose).mulVec y) 0,
                (((g.transpose * g)⁻¹ * g.transpose).mulVec y) 1,
                (((g.transpose * g)⁻¹ * g.transpose).mulVec y) 2),
          v := (0, 0, 0),
          dt := (((g.transpose * g)⁻¹ * g.transpose).mulVec y) 3 / cLight,
          hdop_sq := (g.transpose * g)⁻¹ 0 0 + (g.transpose * g)⁻¹ 1 1,
          vdop_sq := (g.transpose * g)⁻¹ 2 2,
          tdop_sq := (g.transpose * g)⁻¹ 3 3,
          sv := sv }) := by
  constructor
  · intro h
    have hnone : try_inverse (g.transpose * g) = none := by
      unfold try_inverse
      rw [if_pos h]
    unfold PVTSolution.new
    simp only [hnone]
  · intro h
    have hinv : try_inverse (g.transpose * g) = some ((g.transpose * g)⁻¹) := by
      unfold try_inverse
      rw [if_neg h, Matrix.inv_def, Ring.inverse_eq_inv]
    constructor
    · have hu : IsUnit (g.transpose * g).det := isUnit_iff_ne_zero.mpr h
      rw [Matrix.mulVec_mulVec, ← Matrix.mul_assoc, Matrix.mul_nonsing_inv _ hu,
        Matrix.one_mul]
    · unfold PVTSolution.new
      simp only [hinv, isNanQ, Bool.false_eq_true, if_false]

/-- Witness for C1: the identity geometry, where the normal matrix is `1`. -/
theorem pvt_new_least_squares_witness :
    ((1 : Matrix (Fin 4) (Fin 4) ℚ).transpose * 1).det ≠ 0 ∧
    PVTSolution.new (1 : Matrix (Fin 4) (Fin 4) ℚ) 1 (fun _ => (1 : ℚ)) () = .ok
      { p := (1, 1, 1), v := (0, 0, 0), dt := 1 / cLight,
        hdop_sq := 2, vdop_sq := 1, tdop_sq := 1, sv := () } := by
  have h : ((1 : Matrix (Fin 4) (Fin 4) ℚ).transpose * 1).det ≠ 0 := by
    rw [Matrix.transpose_one, Matrix.mul_one, Matrix.det_one]
    exact one_ne_zero
  refine ⟨h, ?_⟩
  have h2 := ((pvt_new_least_squares 1 1 (fun _ => (1 : ℚ)) ()).2 h).2
  rw [h2]
  norm_num [Matrix.transpose_one, Matrix.mul_one, inv_one, Matrix.one_mulVec,
    Matrix.one_apply]

/-- Setting an index exchanges the old element for the new one, as multisets. -/
theorem mset_set {γ : Type} (l : List γ) :
    ∀ (i : ℕ) (h : i < l.length) (x : γ),
      ((l.set i x : List γ) : Multiset γ) + {l.get ⟨i, h⟩} = (l : Multiset γ) + {x} := by
  induction l with
  | nil =>
    intro i h
    exact absurd h (by simp)
  | cons a t ih =>
    intro i h x
    cases i with
    | zero =>
      show ((x :: t : List γ) : Multiset γ) + {a} = ((a :: t : List γ) : Multiset γ) + {x}
      have key : ∀ (s : Multiset γ) (u v : γ), (u ::ₘ s) + {v} = (v ::ₘ s) + {u} := by
        intro s u v
        calc (u ::ₘ s) + {v} = u ::ₘ (s + {v}) := Multiset.cons_add u s {v}
          _ = u ::ₘ (v ::ₘ s) := by rw [add_comm, Multiset.singleton_add]
          _ = v ::ₘ (u ::ₘ s) := Multiset.cons_swap u v s
          _ = v ::ₘ (s + {u}) := by rw [add_comm, Multiset.singleton_add]
          _ = (v ::ₘ s) + {u} := (Multiset.cons_add v s {u}).symm
      exact key (t : Multiset γ) x a
    | succ j =>
      have hj : j < t.length := Nat.lt_of_succ_lt_succ h
      show ((a :: t.set j x : List γ) : Multiset γ) + {t.get ⟨j, hj⟩} =
        ((a :: t : List γ) : Multiset γ) + {x}
      rw [← Multiset.cons_coe, ← Multiset.cons_coe, Multiset.cons_add, Multiset.cons_add,
        ih j hj x]

/-- Dropping the last element removes exactly one copy of it, as multisets. -/
theorem dropLast_mset {γ : Type} (l : List γ) (x : γ) (hx : l.getLast? = some x) :
    ((l.dropLast : List γ) : Multiset γ) + {x} = (l : Multiset γ) := by
  have hne : l ≠ [] := by
    intro e
    subst e
    exact Option.noConfusion hx
  have hxx : l.getLast hne = x := by
    rw [← Option.some_inj, ← List.getLast?_eq_getLast l hne]
    exact hx
  calc ((l.dropLast : List γ) : Multiset γ) + {x}
      = ((l.dropLast ++ [x] : List γ) : Multiset γ) := by
        rw [← Multiset.coe_add]
        rfl
    _ = (l : Multiset γ) := by rw [← hxx, List.dropLast_append_getLast hne]

/-- `swap_remove` removes exactly one copy of the indexed element. -/
theorem swapRemove_mset {γ : Type} (l : List γ) (i : ℕ) (h : i < l.length) :
    ((swapRemove l i : List γ) : Multiset γ) + {l.get ⟨i, h⟩} = (l : Multiset γ) := by
  have hne : l ≠ [] := by
    intro e
    subst e
    exact absurd h (by simp)
  obtain ⟨x, hx⟩ : ∃ x, l.getLast? = some x := by
    cases hgl : l.getLast? with
    | none => exact absurd (List.getLast?_eq_none_iff.mp hgl) hne
    | some y => exact ⟨y, rfl⟩
  rw [swapRemove, hx]
  show ((l.dropLast.set i x : List γ) : Multiset γ) + {l.get ⟨i, h⟩} = (l : Multiset γ)
  by_cases hi : i < l.length - 1
  · have hdl : i < l.dropLast.length := by
      rw [List.length_dropLast]
      exact hi
    have hget : l.dropLast.get ⟨i, hdl⟩ = l.get ⟨i, h⟩ := by
      simp [List.getElem_dropLast]
    calc ((l.dropLast.set i x : List γ) : Multiset γ) + {l.get ⟨i, h⟩}
        = ((l.dropLast.set i x : List γ) : Multiset γ) + {l.dropLast.get ⟨i, hdl⟩} := by
          rw [hget]
      _ = ((l.dropLast : List γ) : Multiset γ) + {x} := mset_set l.dropLast i hdl x
      _ = (l : Multiset γ) := dropLast_mset l x hx
  · have hieq : i = l.length - 1 := by omega
    have hsetid : l.dropLast.set i x = l.dropLast :=
      List.set_eq_of_length_le (by rw [List.length_dropLast]; omega)
    rw [hsetid]
    have hgx : l.get ⟨i, h⟩ = x := by
      have h1 : l.getLast hne = l.get ⟨l.length - 1, by omega⟩ := List.getLast_eq_get l hne
      have h2 : l.getLast hne = x := by
        rw [← Option.some_inj, ← List.getLast?_eq_getLast l hne]
        exact hx
      rw [← h2, h1]
      congr 1
      exact Fin.ext hieq
    rw [hgx]
    exact dropLast_mset l x hx

/-- Soundness of the index-range filter loop: when it completes, the result
is a sub-multiset of the pool in which every element failing the drop test
keeps its exact multiplicity. -/
theorem filterLoop_spec {γ : Type} [DecidableEq γ] (drop : γ → Bool) :
    ∀ (idxs : List ℕ) (pool pool' : List γ),
      filterLoop drop idxs pool = some pool' →
      ((pool' : Multiset γ) ≤ (pool : Multiset γ) ∧
       ∀ c, drop c = false →
         Multiset.count c (pool' : Multiset γ) = Multiset.count c (pool : Multiset γ)) := by
  intro idxs
  induction idxs with
  | nil =>
    intro pool pool' h
    rw [filterLoop] at h
    cases h
    exact ⟨le_refl _, fun c _ => rfl⟩
  | cons i rest ih =>
    intro pool pool' h
    rw [filterLoop] at h
    split at h
    · rename_i hlt
      split at h
      · rename_i hdrop
        obtain ⟨h1, h2⟩ := ih _ _ h
        have hsw := swapRemove_mset pool i hlt
        constructor
        · calc (pool' : Multiset γ) ≤ ((swapRemove pool i : List γ) : Multiset γ) := h1
            _ ≤ ((swapRemove pool i : List γ) : Multiset γ) + {pool.get ⟨i, hlt⟩} :=
              Multiset.le_add_right _ _
            _ = (pool : Multiset γ) := hsw
        · intro c hc
          rw [h2 c hc]
          have hne : c ≠ pool.get ⟨i, hlt⟩ := by
            intro e
            rw [e, hdrop] at hc
            exact Bool.noConfusion hc
          rw [← hsw, Multiset.count_add, Multiset.count_singleton, if_neg hne, add_zero]
      · exact ih _ _ h
    · exact Option.noConfusion h

/-- C5 (amended): when the elevation-mask step completes without panicking,
it only ever removes candidates whose elevation is absent or below the
threshold, and every candidate with present elevation not below the
threshold is retained with its exact multiplicity; however it does not drop
every below-threshold candidate — the loop leaves the tail slot unexamined
(see the counterexample). -/
theorem elevation_mask_sound (m : ℚ) (pool pool' : List SCand)
    (h : maskStep (elevDrop m) pool = some pool') :
    ((pool' : List SCand) : Multiset SCand) ≤ ((pool : List SCand) : Multiset SCand) ∧
    (∀ c : SCand, (∃ e, c.elevation = some e ∧ m ≤ e) →
      Multiset.count c ((pool' : List SCand) : Multiset SCand) =
        Multiset.count c ((pool : List SCand) : Multiset SCand)) ∧
    (∀ c : SCand, Multiset.count c ((pool' : List SCand) : Multiset SCand) <
        Multiset.count c ((pool : List SCand) : Multiset SCand) →
      c.elevation = none ∨ ∃ e, c.elevation = some e ∧ e < m) := by
  rw [maskStep] at h
  split at h
  · exact Option.noConfusion h
  · obtain ⟨h1, h2⟩ := filterLoop_spec (elevDrop m) _ _ _ h
    refine ⟨h1, ?_, ?_⟩
    · rintro c ⟨e, he, hme⟩
      apply h2
      rw [elevDrop, he]
      simp [not_lt.mpr hme]
    · intro c hlt
      by_contra hcon
      push_neg at hcon
      obtain ⟨hne, hall⟩ := hcon
      cases hel : c.elevation with
      | none => exact hne hel
      | some e =>
        have hme : m ≤ e := hall e hel
        have hdf : elevDrop m c = false := by
          rw [elevDrop, hel]
          simp [not_lt.mpr hme]
        rw [h2 c hdf] at hlt
        exact lt_irrefl _ hlt

/-- Witness for C5: a singleton passing pool survives the mask unchanged. -/
theorem elevation_mask_sound_witness :
    maskStep (elevDrop 10) [scGood 1] = some [scGood 1] ∧
    (([scGood 1] : List SCand) : Multiset SCand) ≤
      (([scGood 1] : List SCand) : Multiset SCand) := by
  have h : maskStep (elevDrop 10) [scGood 1] = some [scGood 1] := rfl
  exact ⟨h, (elevation_mask_sound 10 [scGood 1] [scGood 1] h).1⟩

/-- C5 counterexample: with `min_sv_elev = 10` and a four-candidate pool
whose below-threshold candidate sits in the last slot, `run` retains that
candidate — the elevation loop (`0..len-1`) never examines the final
element, refuting the claim that every below-threshold candidate is
dropped. -/
theorem elevation_mask_counterexample :
    run (some 10) none some (fun _ _ => false) RunOutcome.ok 0 c5pool =
      .ok [scGood 1, scGood 2, scGood 3, scBad] ∧
    scBad ∈ [scGood 1, scGood 2, scGood 3, scBad] ∧
    scBad.elevation = some 5 ∧ (5 : ℚ) < 10 := by
  refine ⟨?_, by simp, rfl, by norm_num⟩
  decide

/-- C6: whenever the elevation and eclipse filter steps both complete and
leave fewer than 4 candidates, `run` returns the error LessThan4SV(t) — the
downstream solution builder is never consulted, so no partial PVTSolution
is produced. -/
theorem run_less_than_4sv {σ : Type} (me ms : Option ℚ) (resolve : SCand → Option SCand)
    (eclipsed : ℚ → SCand → Bool) (build : List SCand → RunOutcome σ) (t : ℚ)
    (pool pool2 pool3 : List SCand)
    (h2 : elevStep me ((electCandidates .spp pool).filterMap resolve) = some pool2)
    (h3 : eclipseStep ms eclipsed pool2 = some pool3)
    (h4 : pool3.length < 4) :
    run me ms resolve eclipsed build t pool = .err (.lessThan4SV t) := by
  rw [run]
  simp only [h2, h3, if_pos h4]

/-- Witness for C6: the empty pool with no masks configured. -/
theorem run_less_than_4sv_witness :
    run none none some (fun _ _ => false) (RunOutcome.ok : List SCand → RunOutcome (List SCand)) 0 [] =
      .err (.lessThan4SV 0) := by
  have h2 : elevStep none ((electCandidates .spp ([] : List SCand)).filterMap some) =
      some [] := rfl
  have h3 : eclipseStep none (fun _ _ => false) ([] : List SCand) = some [] := rfl
  exact run_less_than_4sv none none some (fun _ _ => false) RunOutcome.ok 0 [] [] []
    h2 h3 (by decide)

/-- C9: when `min_sv_elev` (or, with it unset, `min_sv_sunlight_rate`) is
configured and the pool is empty by the time the corresponding filter loop
is reached, `run` panics — the `usize` loop bound `pool.len() - 1`
underflows — instead of returning the LessThan4SV error. -/
theorem run_empty_pool_panics {σ : Type} (m : ℚ) (ms : Option ℚ)
    (resolve : SCand → Option SCand) (eclipsed : ℚ → SCand → Bool)
    (build : List SCand → RunOutcome σ) (t : ℚ) (pool : List SCand)
    (hempty : (electCandidates .spp pool).filterMap resolve = []) :
    run (some m) ms resolve eclipsed build t pool = .panic ∧
    run none (some m) resolve eclipsed build t pool = .panic := by
  constructor
  · rw [run]
    simp [hempty, elevStep, maskStep]
  · rw [run]
    simp [hempty, elevStep, eclipseStep, maskStep]

/-- Witness for C9: the literally empty pool with an elevation mask set. -/
theorem run_empty_pool_panics_witness :
    ((electCandidates .spp ([] : List SCand)).filterMap some = []) ∧
    run (some 10) none some (fun _ _ => false) (fun _ => RunOutcome.ok ()) 0 [] =
      .panic := by
  have h : (electCandidates .spp ([] : List SCand)).filterMap some = [] := rfl
  exact ⟨h, (run_empty_pool_panics 10 none some (fun _ _ => false)
    (fun _ => .ok ()) 0 [] h).1⟩
